import Mathlib

/-!
Verification development for the lexical front end of ferrodb
(src/syntax/tokenizer.rs and src/syntax/tokens.rs).

The Rust tokenizer is shallowly embedded: each typestate
(`Tokenizer<BaseState>`, `Tokenizer<StringState>`, ...) becomes a case of an
inductive state-machine type carrying the shared fields `char_buffer` and
`token_start`; each `process_character` impl becomes an executable Lean
function.  The Rust `tokens: VecDeque<TokenItem>` field is drained by the
iteration layer after every successful step and no error path pushes into
it first, so a step is modelled as returning the list of tokens it pushes
during that step.  The iterator (`TokenIterator::next`) pops at most two
tokens from that queue per step (returning the first, buffering the second
for the following pull, and dropping any further ones); since the buffered
token is always delivered on the immediately following pull, the full pull
sequence is the in-order concatenation of the per-step emissions, truncated
to two per step, which `pullsFrom` reproduces exactly.
-/

/-- Mirror of `CharacterLocation` (tokenizer.rs): row/column source position. -/
structure CharacterLocation where
  row : Nat
  col : Nat
deriving DecidableEq

/-- Mirror of `CharacterItem`: one character with one-character lookahead and
its location. -/
structure CharacterItem where
  character : Char
  next_character : Option Char
  location : CharacterLocation
deriving DecidableEq

/-- Mirror of `Whitespace` (tokens.rs). -/
inductive Whitespace where
  | Invalid
  | Newline
  | Space
  | Tab
deriving DecidableEq

/-- Mirror of `Operator` (tokens.rs). -/
inductive Operator where
  | Add
  | Divide
  | Eq
  | Gt
  | GtEq
  | Invalid
  | Lt
  | LtEq
  | Modulo
  | Multiply
  | NotEq
  | ParenClose
  | ParenOpen
  | Subtract
deriving DecidableEq

/-- Mirror of `Keyword` (tokens.rs). -/
inductive Keyword where
  | And
  | As
  | Begin
  | Between
  | BigInt
  | Bool
  | By
  | Commit
  | Create
  | Database
  | Delete
  | Distinct
  | Drop
  | False
  | From
  | In
  | Index
  | Insert
  | Int
  | Invalid
  | Key
  | Like
  | Limit
  | Not
  | Null
  | Or
  | Order
  | Primary
  | Rollback
  | Select
  | Set
  | Table
  | Transaction
  | True
  | Unique
  | Unsigned
  | Update
  | Values
  | Varchar
  | Where
deriving DecidableEq

/-- Mirror of `Separator` (tokens.rs). -/
inductive Separator where
  | Comma
  | Invalid
  | Operator (op : Operator)
  | Semicolon
  | Whitespace (ws : Whitespace)
deriving DecidableEq

/-- Mirror of `Token` (tokens.rs). -/
inductive Token where
  | Keyword (kw : Keyword)
  | Identifier (s : String)
  | Separator (sep : Separator)
  | String (s : String)
  | Number (s : String)
deriving DecidableEq

/-- Rust `str::to_uppercase`, as used by the classification tables (they only
compare the result against ASCII literals).  Lean's own `String.toUpper` maps
`Char.toUpper` over the characters through `String.mapAux`, which the kernel
cannot reduce; this is the same function written structurally over the
character list. -/
def strToUpper (s : String) : String :=
  ⟨s.data.map Char.toUpper⟩

/-- Mirror of `impl From<&str> for Whitespace`. -/
def Whitespace.fromString (val : String) : Whitespace :=
  match strToUpper val with
  | " " => .Space
  | "\t" => .Tab
  | "\n" => .Newline
  | _ => .Invalid

/-- Mirror of `impl From<&str> for Operator`. -/
def Operator.fromString (val : String) : Operator :=
  match strToUpper val with
  | "+" => .Add
  | "/" => .Divide
  | "=" => .Eq
  | ">" => .Gt
  | ">=" => .GtEq
  | "<" => .Lt
  | "<=" => .LtEq
  | "%" => .Modulo
  | "*" => .Multiply
  | "!=" => .NotEq
  | ")" => .ParenClose
  | "(" => .ParenOpen
  | "-" => .Subtract
  | _ => .Invalid

/-- Mirror of `impl From<&str> for Keyword`. -/
def Keyword.fromString (val : String) : Keyword :=
  match strToUpper val with
  | "AND" => .And
  | "AS" => .As
  | "BEGIN" => .Begin
  | "BETWEEN" => .Between
  | "BIGINT" => .BigInt
  | "BOOL" => .Bool
  | "BY" => .By
  | "COMMIT" => .Commit
  | "CREATE" => .Create
  | "DATABASE" => .Database
  | "DELETE" => .Delete
  | "DISTINCT" => .Distinct
  | "DROP" => .Drop
  | "FALSE" => .False
  | "FROM" => .From
  | "IN" => .In
  | "INDEX" => .Index
  | "INSERT" => .Insert
  | "INT" => .Int
  | "KEY" => .Key
  | "LIKE" => .Like
  | "LIMIT" => .Limit
  | "NOT" => .Not
  | "NULL" => .Null
  | "OR" => .Or
  | "ORDER" => .Order
  | "PRIMARY" => .Primary
  | "ROLLBACK" => .Rollback
  | "SELECT" => .Select
  | "SET" => .Set
  | "TABLE" => .Table
  | "TRANSACTION" => .Transaction
  | "TRUE" => .True
  | "UNIQUE" => .Unique
  | "UNSIGNED" => .Unsigned
  | "UPDATE" => .Update
  | "VALUES" => .Values
  | "VARCHAR" => .Varchar
  | "WHERE" => .Where
  | _ => .Invalid

/-- Mirror of `impl From<&str> for Separator`. -/
def Separator.fromString (val : String) : Separator :=
  match strToUpper val with
  | ";" => .Semicolon
  | "," => .Comma
  | _ =>
    if Whitespace.fromString val ≠ .Invalid then
      .Whitespace (Whitespace.fromString val)
    else if Operator.fromString val ≠ .Invalid then
      .Operator (Operator.fromString val)
    else
      .Invalid

/-- Abbreviation used below: inside the `Token` namespace the name `String`
resolves to the constructor `Token.String`, so the string type is referred to
through this alias. -/
abbrev Str := String

/-- Mirror of `impl From<&str> for Token`. -/
def Token.fromString (val : Str) : Token :=
  if Separator.fromString val ≠ .Invalid then
    .Separator (Separator.fromString val)
  else if Operator.fromString val ≠ .Invalid then
    .Separator (.Operator (Operator.fromString val))
  else if Keyword.fromString val ≠ .Invalid then
    .Keyword (Keyword.fromString val)
  else
    .Identifier val

/-- Location update of `CharacterIter::next`: a newline advances the row and
resets the column, any other character advances the column. -/
def advanceLoc (loc : CharacterLocation) (c : Char) : CharacterLocation :=
  if c = '\n' then ⟨loc.row + 1, 0⟩ else ⟨loc.row, loc.col + 1⟩

/-- The per-character items of `CharacterIter`: each character paired with the
peeked next character and the location it occupies. -/
def charItemsFrom : List Char → CharacterLocation → List CharacterItem
  | [], _ => []
  | c :: rest, loc => ⟨c, rest.head?, loc⟩ :: charItemsFrom rest (advanceLoc loc c)

/-- The location reached after consuming all characters of `s`
(the location carried by the sentinel item). -/
def endLocation (s : List Char) : CharacterLocation :=
  s.foldl advanceLoc ⟨0, 0⟩

/-- Mirror of `CharacterIter` as a whole: one item per input character, then —
only when the input is non-empty (`self.input.is_empty()` check) — a single
sentinel item with character `'\x00'` and no lookahead. -/
def charItems (s : List Char) : List CharacterItem :=
  if s.isEmpty then []
  else charItemsFrom s ⟨0, 0⟩ ++ [⟨'\x00', none, endLocation s⟩]

/-- Mirror of `TokenItem` (field `end` is called `stop` here, `end` being a
Lean keyword). -/
structure TokenItem where
  token : Token
  start : CharacterLocation
  stop : CharacterLocation
deriving DecidableEq

/-- Mirror of `TokenizerError`. -/
inductive TokenizerError where
  | UnterminatedString (loc : CharacterLocation)
  | InvalidNumber (loc : CharacterLocation)
deriving DecidableEq

/-- The fields shared by every `Tokenizer<S>` apart from the drained token
queue: the accumulation buffer and the current token start position. -/
structure TokBuf where
  char_buffer : String
  token_start : CharacterLocation
deriving DecidableEq

/-- Mirror of `TokenizerStateMachine`: one case per typestate. -/
inductive TokenizerStateMachine where
  | Base (t : TokBuf)
  | StringMode (t : TokBuf)
  | Comment (t : TokBuf)
  | OperatorMode (t : TokBuf)
  | Number (parsing_decimals : Bool) (t : TokBuf)
  | Invalid (t : TokBuf)
deriving DecidableEq

/-- Mirror of `Tokenizer::<BaseState>::tokenize`: suppress empty or sentinel
buffers, otherwise classify the text. -/
def baseTokenize (s : String) (start stop : CharacterLocation) : Option TokenItem :=
  if s = "" ∨ s = "\x00" then none
  else some ⟨Token.fromString s, start, stop⟩

/-- Mirror of `Tokenizer::<StringState>::tokenize`: always emits, even for the
empty buffer. -/
def stringTokenize (s : String) (start stop : CharacterLocation) : Option TokenItem :=
  some ⟨Token.String s, start, stop⟩

/-- Mirror of `Tokenizer::<CommentState>::tokenize`: ignores the buffer and
start, emits a synthetic newline token at the end position. -/
def commentTokenize (_s : String) (_start stop : CharacterLocation) : Option TokenItem :=
  some ⟨Token.Separator (.Whitespace .Newline), stop, stop⟩

/-- Mirror of `Tokenizer::<OperatorState>::tokenize`: always emits the buffer
classified as an operator. -/
def operatorTokenize (s : String) (start stop : CharacterLocation) : Option TokenItem :=
  some ⟨Token.Separator (.Operator (Operator.fromString s)), start, stop⟩

/-- Mirror of `Tokenizer::<NumberState>::tokenize`: suppress empty or sentinel
buffers, otherwise emit a Number token with the raw text. -/
def numberTokenize (s : String) (start stop : CharacterLocation) : Option TokenItem :=
  if s = "" ∨ s = "\x00" then none
  else some ⟨Token.Number s, start, stop⟩

/-- Mirror of `Tokenizer::<BaseState>::process_character`, returning the next
state and the tokens pushed during the step.  Match arms in source order:
sentinel flush, string open, comment open (lookahead `-`), number start
(only on an empty buffer), then separator classification of the single
character.  In the operator branch the source flushes the buffer once in
`process_character` and a second time inside `to_operator_state` without
clearing it in between, so a non-empty buffer is pushed twice there. -/
def baseProcessChar (t : TokBuf) (ci : CharacterItem) :
    TokenizerStateMachine × List TokenItem :=
  if ci.character = '\x00' then
    (.Base t, (baseTokenize t.char_buffer t.token_start ci.location).toList)
  else if ci.character = '"' then
    (.StringMode ⟨"", ci.location⟩,
      (baseTokenize t.char_buffer t.token_start ci.location).toList)
  else if ci.character = '-' ∧ ci.next_character = some '-' then
    (.Comment ⟨"", ci.location⟩,
      (baseTokenize t.char_buffer t.token_start ci.location).toList)
  else if (ci.character.isDigit ∨ ci.character = '.') ∧ t.char_buffer = "" then
    (.Number (ci.character == '.') ⟨ci.character.toString, ci.location⟩, [])
  else
    match Separator.fromString ci.character.toString with
    | .Invalid =>
      (.Base ⟨t.char_buffer.push ci.character, t.token_start⟩, [])
    | .Operator _ =>
      (.OperatorMode ⟨ci.character.toString, t.token_start⟩,
        (baseTokenize t.char_buffer t.token_start ci.location).toList ++
        (baseTokenize t.char_buffer t.token_start ci.location).toList)
    | _ =>
      (.Base ⟨"", t.token_start⟩,
        (baseTokenize t.char_buffer t.token_start ci.location).toList ++
        (baseTokenize ci.character.toString t.token_start ci.location).toList)

/-- Mirror of `Tokenizer::<StringState>::process_character`: sentinel or
newline fail with `UnterminatedString` at the recorded token start, a quote
closes the literal (emitting even an empty buffer), anything else appends. -/
def stringProcessChar (t : TokBuf) (ci : CharacterItem) :
    Except TokenizerError (TokenizerStateMachine × List TokenItem) :=
  if ci.character = '\x00' then
    .error (.UnterminatedString t.token_start)
  else if ci.character = '\n' then
    .error (.UnterminatedString t.token_start)
  else if ci.character = '"' then
    .ok (.Base ⟨"", ci.location⟩,
      (stringTokenize t.char_buffer t.token_start ci.location).toList)
  else
    .ok (.StringMode ⟨t.char_buffer.push ci.character, t.token_start⟩, [])

/-- Mirror of `Tokenizer::<CommentState>::process_character`: a newline emits
the synthetic newline token and returns to Base, anything else is discarded. -/
def commentProcessChar (t : TokBuf) (ci : CharacterItem) :
    TokenizerStateMachine × List TokenItem :=
  if ci.character = '\n' then
    (.Base ⟨"", ci.location⟩,
      (commentTokenize "" t.token_start ci.location).toList)
  else
    (.Comment t, [])

/-- Mirror of `Tokenizer::<OperatorState>::process_character`: if buffer +
current character classifies as an operator, emit the pair as one token;
otherwise emit the buffered single character as an operator token and
reprocess the current character from Base with an empty buffer. -/
def operatorProcessChar (t : TokBuf) (ci : CharacterItem) :
    TokenizerStateMachine × List TokenItem :=
  match Operator.fromString (t.char_buffer ++ ci.character.toString) with
  | .Invalid =>
    let stepped := baseProcessChar ⟨"", ci.location⟩ ci
    (stepped.1,
      (operatorTokenize t.char_buffer t.token_start ci.location).toList ++ stepped.2)
  | _ =>
    (.Base ⟨"", ci.location⟩,
      (operatorTokenize (t.char_buffer ++ ci.character.toString)
        t.token_start ci.location).toList)

/-- Mirror of `Tokenizer::<NumberState>::process_character`: a second `.`
fails with `InvalidNumber` at the token start, `.`/digits accumulate, and any
other character emits the buffer as a Number token followed by the current
character classified directly as a single-character token (`to_base_state`). -/
def numberProcessChar (pd : Bool) (t : TokBuf) (ci : CharacterItem) :
    Except TokenizerError (TokenizerStateMachine × List TokenItem) :=
  if ci.character = '.' ∧ pd = true then
    .error (.InvalidNumber t.token_start)
  else if ci.character = '.' then
    .ok (.Number true ⟨t.char_buffer.push ci.character, t.token_start⟩, [])
  else if ci.character.isDigit then
    .ok (.Number pd ⟨t.char_buffer.push ci.character, t.token_start⟩, [])
  else
    .ok (.Base ⟨"", ci.location⟩,
      (numberTokenize t.char_buffer t.token_start ci.location).toList ++
      (baseTokenize ci.character.toString ci.location ci.location).toList)

/-- Mirror of `TokenizerStateMachine::process_character`: dispatch on the
current mode; the `Invalid` mode (entered after any error) maps every further
character to `InvalidNumber` at that character's location. -/
def processChar (sm : TokenizerStateMachine) (ci : CharacterItem) :
    Except TokenizerError (TokenizerStateMachine × List TokenItem) :=
  match sm with
  | .Base t => .ok (baseProcessChar t ci)
  | .StringMode t => stringProcessChar t ci
  | .Comment t => .ok (commentProcessChar t ci)
  | .OperatorMode t => .ok (operatorProcessChar t ci)
  | .Number pd t => numberProcessChar pd t ci
  | .Invalid _ => .error (.InvalidNumber ci.location)

/-- The fresh `Invalid` tokenizer that `std::mem::replace` leaves behind when
`process_character` returns early with an error. -/
def freshInvalid : TokenizerStateMachine :=
  .Invalid ⟨"", ⟨0, 0⟩⟩

/-- Mirror of the `TokenIterator` pull loop: the sequence of
`Result<TokenItem, TokenizerError>` values produced by repeated `next()`
calls.  Per successful step the iterator returns the first completed token,
buffers the second for the immediately following pull, and drops any further
ones (`tokens.pop_front()` is called twice); after an error the machine is
the fresh `Invalid` left by `mem::replace` and iteration continues over the
remaining characters. -/
def pullsFrom : TokenizerStateMachine → List CharacterItem →
    List (Except TokenizerError TokenItem)
  | _, [] => []
  | sm, ci :: rest =>
    match processChar sm ci with
    | .error e => .error e :: pullsFrom freshInvalid rest
    | .ok (sm', toks) =>
      match toks with
      | [] => pullsFrom sm' rest
      | [t] => .ok t :: pullsFrom sm' rest
      | t1 :: t2 :: _ => .ok t1 :: .ok t2 :: pullsFrom sm' rest

/-- Mirror of `Tokenizer::<BaseState>::new`: empty buffer, default start. -/
def initialState : TokenizerStateMachine :=
  .Base ⟨"", ⟨0, 0⟩⟩

/-- Mirror of `tokenize`: the full pull sequence of `TokenIterator::new(sql)`. -/
def tokenize (sql : String) : List (Except TokenizerError TokenItem) :=
  pullsFrom initialState (charItems sql.data)

/-- Lexicographic order on locations: row first, then column. -/
def locLe (a b : CharacterLocation) : Bool :=
  decide (a.row < b.row ∨ (a.row = b.row ∧ a.col ≤ b.col))

/-- The payload predicate asserted by the spec for Number tokens: a non-empty
string of digits containing at most one dot — in particular at least one
digit. -/
def validDecimalLiteral (s : String) : Bool :=
  s ≠ "" && s.data.all (fun c => c.isDigit || c == '.') &&
    s.data.count '.' ≤ 1 && s.data.any (fun c => c.isDigit)

/-- Every element of the list is an error result. -/
def errorsOnly (l : List (Except TokenizerError TokenItem)) : Prop :=
  ∀ x ∈ l, ∃ e, x = .error e

/-- After any error element of the pull sequence, only error elements follow
(in particular no token is ever yielded after an error). -/
def noTokenAfterError (l : List (Except TokenizerError TokenItem)) : Prop :=
  ∀ pre e suf, l = pre ++ .error e :: suf → errorsOnly suf

/-- Invariant of the Number mode buffer: non-empty, only digits and dots, and
the dot count is exactly one when `parsing_decimals` is set and zero
otherwise. -/
def numberBufferInv (pd : Bool) (cb : String) : Prop :=
  cb ≠ "" ∧ (∀ c ∈ cb.data, c.isDigit = true ∨ c = '.') ∧
    cb.data.count '.' = (if pd then 1 else 0)

/-- Machine invariant used for the Number payload property: in Number mode the
buffer satisfies `numberBufferInv`; other modes carry no constraint. -/
def smInv : TokenizerStateMachine → Prop
  | .Number pd t => numberBufferInv pd t.char_buffer
  | _ => True

/-- Shape of every emitted Number payload: non-empty, only digits and dots,
at most one dot. -/
def numberPayloadOk (s : String) : Prop :=
  s ≠ "" ∧ (∀ c ∈ s.data, c.isDigit = true ∨ c = '.') ∧ s.data.count '.' ≤ 1

/-- A token item is acceptable when, if it is a Number token, its payload has
the emitted-number shape. -/
def tokOk (ti : TokenItem) : Prop :=
  ∀ s, ti.token = Token.Number s → numberPayloadOk s

/-- Claim C8 (confirmed): tokenizing the empty string yields an empty
sequence, and the character source produces no items at all for empty input
(not even the sentinel). -/
theorem c8_empty_input :
    tokenize "" = [] ∧ charItems "".data = [] := by
  constructor <;> rfl

/-- Claim C2, failing evaluation (code bug): on input `"a,"` the code yields
the identifier token `a` spanning (0,0)-(0,1) followed by the comma token
whose recorded start is (0,0) even though the comma sits at column 1 —
`token_start` is never updated on Base mode's separator path — so the first
token's end (0,1) does not precede or equal the second token's start (0,0),
violating position monotonicity. -/
theorem c2_position_monotonicity_failure :
    tokenize "a," =
      [.ok ⟨.Identifier "a", ⟨0, 0⟩, ⟨0, 1⟩⟩,
       .ok ⟨.Separator .Comma, ⟨0, 0⟩, ⟨0, 1⟩⟩] ∧
    locLe ⟨0, 1⟩ ⟨0, 0⟩ = false := by
  constructor <;> rfl

/-- Helper: a singleton character string is never empty. -/
theorem charToString_ne_empty (c : Char) : c.toString ≠ "" := by
  intro h
  have hd : c.toString.data = ("" : String).data := by rw [h]
  simp [Char.toString, String.singleton] at hd

/-- Helper: a singleton character string equals the sentinel string only for
the sentinel character. -/
theorem charToString_eq_nul_iff (c : Char) : c.toString = "\x00" ↔ c = '\x00' := by
  constructor
  · intro h
    have hd : c.toString.data = ("\x00" : String).data := by rw [h]
    simpa [Char.toString, String.singleton] using hd
  · intro h; subst h; rfl

/-- Helper: the character source items carry exactly the input characters. -/
theorem charItemsFrom_map_character (s : List Char) :
    ∀ loc, (charItemsFrom s loc).map CharacterItem.character = s := by
  induction s with
  | nil => intro loc; rfl
  | cons c rest ih => intro loc; simp [charItemsFrom, ih]

/-- Helper: the character source yields one item per input character. -/
theorem charItemsFrom_length (s : List Char) :
    ∀ loc, (charItemsFrom s loc).length = s.length := by
  induction s with
  | nil => intro loc; rfl
  | cons c rest ih => intro loc; simp [charItemsFrom, ih]

/-- Claim C1, counterexample: on input `"\"a\nb"` the first pull yields
`UnterminatedString` at (0,0), but the sequence does not end there — the two
further pulls yield `InvalidNumber` errors at (1,0) and (1,1) (the poisoned
`Invalid` state maps every remaining character to an error), contradicting
"yields that error exactly once and then the sequence ends". -/
theorem c1_counterexample :
    tokenize "\"a\nb" =
      [.error (.UnterminatedString ⟨0, 0⟩),
       .error (.InvalidNumber ⟨1, 0⟩),
       .error (.InvalidNumber ⟨1, 1⟩)] := rfl

/-- Claim C3, counterexample: after `Number("1")`, the terminating `"` of
input `1"` is NOT dispatched into Base mode — it is classified directly as a
single-character token, yielding `Identifier("\"")`, whereas Base mode
processing the same character item enters String mode (as the run on the
one-character input `"` shows, erroring with UnterminatedString). -/
theorem c3_counterexample :
    tokenize "1\"" =
      [.ok ⟨.Number "1", ⟨0, 0⟩, ⟨0, 1⟩⟩,
       .ok ⟨.Identifier "\"", ⟨0, 1⟩, ⟨0, 1⟩⟩] ∧
    (baseProcessChar ⟨"", ⟨0, 1⟩⟩ ⟨'"', none, ⟨0, 1⟩⟩).1 =
      .StringMode ⟨"", ⟨0, 1⟩⟩ ∧
    tokenize "\"" = [.error (.UnterminatedString ⟨0, 0⟩)] :=
  ⟨rfl, rfl, rfl⟩

/-- Claim C3 (amended): in Number mode, a character that is neither a digit
nor `.` makes the machine emit the buffer as one Number-category token and
then emit that character's own single-character classification as a second
token, landing in Base mode with an empty buffer; the character is not
re-dispatched through Base mode's transition logic (so it cannot open a
string or a comment). -/
theorem c3_number_exit_amended (pd : Bool) (cb : String) (ts : CharacterLocation)
    (ci : CharacterItem) (hd : ci.character.isDigit = false)
    (hdot : ci.character ≠ '.') (hnul : ci.character ≠ '\x00')
    (hcb1 : cb ≠ "") (hcb2 : cb ≠ "\x00") :
    numberProcessChar pd ⟨cb, ts⟩ ci =
      .ok (.Base ⟨"", ci.location⟩,
        [⟨.Number cb, ts, ci.location⟩,
         ⟨Token.fromString ci.character.toString, ci.location, ci.location⟩]) := by
  have h1 : ci.character.toString ≠ "" := charToString_ne_empty _
  have h2 : ci.character.toString ≠ "\x00" := by
    intro h; exact hnul ((charToString_eq_nul_iff _).1 h)
  simp [numberProcessChar, hd, hdot, numberTokenize, baseTokenize, hcb1, hcb2, h1, h2]

/-- Witness for C3 (amended) at Number buffer `1` meeting `"`. -/
theorem c3_number_exit_amended_witness :
    numberProcessChar false ⟨"1", ⟨0, 0⟩⟩ ⟨'"', none, ⟨0, 1⟩⟩ =
      .ok (.Base ⟨"", ⟨0, 1⟩⟩,
        [⟨.Number "1", ⟨0, 0⟩, ⟨0, 1⟩⟩,
         ⟨Token.fromString ('"').toString, ⟨0, 1⟩, ⟨0, 1⟩⟩]) :=
  c3_number_exit_amended false "1" ⟨0, 0⟩ ⟨'"', none, ⟨0, 1⟩⟩ (by decide)
    (by decide) (by decide) (by decide) (by decide)

/-- Claim C4, counterexample: for the empty input the character source
produces no items at all — not even the sentinel — so the claimed count of
"one item per character plus exactly one sentinel" fails at the empty text. -/
theorem c4_counterexample :
    charItems "".data = [] ∧ (charItems "".data).length ≠ "".data.length + 1 :=
  ⟨rfl, by decide⟩

/-- Claim C4 (amended: restricted to non-empty input): for every non-empty
input text the character source yields exactly one item per character, in
input order, followed by exactly one sentinel item carrying the NUL marker
with no lookahead, and then terminates. -/
theorem c4_sentinel_amended (s : List Char) (h : s ≠ []) :
    (charItems s).map CharacterItem.character = s ++ ['\x00'] ∧
    (charItems s).length = s.length + 1 ∧
    (charItems s).getLast? = some ⟨'\x00', none, endLocation s⟩ := by
  have hne : s.isEmpty = false := by simp [List.isEmpty_iff, h]
  refine ⟨?_, ?_, ?_⟩ <;>
    simp [charItems, hne, charItemsFrom_map_character, charItemsFrom_length,
      List.getLast?_concat]

/-- Witness for C4 (amended) at the one-character input. -/
theorem c4_sentinel_amended_witness :
    (charItems ['a']).map CharacterItem.character = ['a'] ++ ['\x00'] ∧
    (charItems ['a']).length = ['a'].length + 1 ∧
    (charItems ['a']).getLast? = some ⟨'\x00', none, endLocation ['a']⟩ :=
  c4_sentinel_amended ['a'] (by decide)

/-- Claim C5 (confirmed): in Operator mode, if buffer + current character
classifies as a recognized operator the pair is emitted as a single operator
token; otherwise the buffered single character is emitted as a one-character
operator token and the current character is reprocessed from Base mode (with
an empty buffer at the current location).  Concretely, `1 + 2 >= 3` yields
exactly Number "1", Space, Add, Space, Number "2", Space, GtEq, Space,
Number "3". -/
theorem c5_operator_resolution :
    (∀ (cb : String) (ts : CharacterLocation) (ci : CharacterItem),
      Operator.fromString (cb ++ ci.character.toString) ≠ .Invalid →
      operatorProcessChar ⟨cb, ts⟩ ci =
        (.Base ⟨"", ci.location⟩,
         [⟨.Separator (.Operator (Operator.fromString (cb ++ ci.character.toString))),
           ts, ci.location⟩])) ∧
    (∀ (cb : String) (ts : CharacterLocation) (ci : CharacterItem),
      Operator.fromString (cb ++ ci.character.toString) = .Invalid →
      operatorProcessChar ⟨cb, ts⟩ ci =
        ((baseProcessChar ⟨"", ci.location⟩ ci).1,
         ⟨.Separator (.Operator (Operator.fromString cb)), ts, ci.location⟩ ::
           (baseProcessChar ⟨"", ci.location⟩ ci).2)) ∧
    (tokenize "1 + 2 >= 3").map (Except.map TokenItem.token) =
      [.ok (.Number "1"), .ok (.Separator (.Whitespace .Space)),
       .ok (.Separator (.Operator .Add)), .ok (.Separator (.Whitespace .Space)),
       .ok (.Number "2"), .ok (.Separator (.Whitespace .Space)),
       .ok (.Separator (.Operator .GtEq)), .ok (.Separator (.Whitespace .Space)),
       .ok (.Number "3")] := by
  refine ⟨?_, ?_, rfl⟩
  · intro cb ts ci h
    unfold operatorProcessChar
    split
    · next heq => exact absurd heq h
    · simp [operatorTokenize]
  · intro cb ts ci h
    unfold operatorProcessChar
    split
    · simp [operatorTokenize]
    · next x heq => rw [h] at heq; exact absurd rfl heq

/-- Witness for C5 at the two-character operator `>=`. -/
theorem c5_operator_resolution_witness :
    operatorProcessChar ⟨">", ⟨0, 5⟩⟩ ⟨'=', some ' ', ⟨0, 7⟩⟩ =
      (.Base ⟨"", ⟨0, 7⟩⟩,
       [⟨.Separator (.Operator (Operator.fromString (">" ++ ('=').toString))),
         ⟨0, 5⟩, ⟨0, 7⟩⟩]) :=
  c5_operator_resolution.1 ">" ⟨0, 5⟩ ⟨'=', some ' ', ⟨0, 7⟩⟩ (by decide)

/-- Claim C6 (confirmed): String mode fails with `UnterminatedString` located
at its recorded token start whenever the sentinel or a newline arrives; the
only way to enter String mode is Base mode's quote transition, which records
the quote's position as that token start; and every non-terminating String
step preserves the token start.  Together: the error location is the opening
quote's position. -/
theorem c6_unterminated_string_location :
    (∀ (t : TokBuf) (nc : Option Char) (loc : CharacterLocation),
      stringProcessChar t ⟨'\x00', nc, loc⟩ =
        .error (.UnterminatedString t.token_start) ∧
      stringProcessChar t ⟨'\n', nc, loc⟩ =
        .error (.UnterminatedString t.token_start)) ∧
    (∀ (t : TokBuf) (nc : Option Char) (loc : CharacterLocation),
      (baseProcessChar t ⟨'"', nc, loc⟩).1 = .StringMode ⟨"", loc⟩) ∧
    (∀ (t : TokBuf) (ci : CharacterItem), ci.character ≠ '\x00' →
      ci.character ≠ '\n' → ci.character ≠ '"' →
      stringProcessChar t ci =
        .ok (.StringMode ⟨t.char_buffer.push ci.character, t.token_start⟩, [])) := by
  refine ⟨fun t nc loc => ⟨rfl, rfl⟩, fun t nc loc => rfl, ?_⟩
  intro t ci h0 h1 h2
  simp [stringProcessChar, h0, h1, h2]

/-- Witness for C6: the accumulating case at a concrete state. -/
theorem c6_unterminated_string_location_witness :
    stringProcessChar ⟨"ab", ⟨0, 3⟩⟩ ⟨'x', none, ⟨0, 6⟩⟩ =
      .ok (.StringMode ⟨("ab").push 'x', ⟨0, 3⟩⟩, []) :=
  c6_unterminated_string_location.2.2 ⟨"ab", ⟨0, 3⟩⟩ ⟨'x', none, ⟨0, 6⟩⟩
    (by decide) (by decide) (by decide)

/-- Claim C7, counterexample: the one-character input `.` tokenizes to a
single Number-category token whose payload is `"."` — which contains no digit
at all, so it is not a syntactically valid decimal literal. -/
theorem c7_counterexample :
    tokenize "." = [.ok ⟨.Number ".", ⟨0, 0⟩, ⟨0, 1⟩⟩] ∧
    validDecimalLiteral "." = false :=
  ⟨rfl, rfl⟩

/-- Claim C10 (confirmed): a quote in Base mode opens String mode with an
empty buffer; a quote in String mode emits the buffer as a String token even
when it is empty (String emission, unlike Base and Number emission, never
suppresses the empty buffer); and the input `""` yields exactly one String
token with empty payload. -/
theorem c10_empty_string_literal :
    (∀ (t : TokBuf) (nc : Option Char) (loc : CharacterLocation),
      baseProcessChar t ⟨'"', nc, loc⟩ =
        (.StringMode ⟨"", loc⟩,
         (baseTokenize t.char_buffer t.token_start loc).toList)) ∧
    (∀ (t : TokBuf) (nc : Option Char) (loc : CharacterLocation),
      stringProcessChar t ⟨'"', nc, loc⟩ =
        .ok (.Base ⟨"", loc⟩, [⟨.String t.char_buffer, t.token_start, loc⟩])) ∧
    (∀ (a b : CharacterLocation),
      stringTokenize "" a b = some ⟨.String "", a, b⟩ ∧
      baseTokenize "" a b = none ∧ numberTokenize "" a b = none) ∧
    tokenize "\"\"" = [.ok ⟨.String "", ⟨0, 0⟩, ⟨0, 1⟩⟩] :=
  ⟨fun _ _ _ => rfl, fun _ _ _ => rfl, fun _ _ => ⟨rfl, rfl, rfl⟩, rfl⟩

/-- Helper: an optional token contributes at most one list element. -/
theorem option_toList_length_le (o : Option TokenItem) : o.toList.length ≤ 1 := by
  cases o <;> simp

/-- Helper: a Base-mode step pushes at most two tokens. -/
theorem base_toks_length_le (t : TokBuf) (ci : CharacterItem) :
    (baseProcessChar t ci).2.length ≤ 2 := by
  unfold baseProcessChar
  cases hb : baseTokenize t.char_buffer t.token_start ci.location <;>
  cases hc : baseTokenize ci.character.toString t.token_start ci.location <;>
    split_ifs <;> (try split) <;> simp_all

/-- Helper: flushing an empty buffer emits nothing. -/
theorem baseTokenize_empty (a b : CharacterLocation) : baseTokenize "" a b = none := rfl

/-- Helper: a Base-mode step from an empty buffer pushes at most one token. -/
theorem base_empty_toks_length_le (ts : CharacterLocation) (ci : CharacterItem) :
    (baseProcessChar ⟨"", ts⟩ ci).2.length ≤ 1 := by
  unfold baseProcessChar
  cases hc : baseTokenize ci.character.toString ts ci.location <;>
    split_ifs <;> (try split) <;> simp_all [baseTokenize_empty]

/-- Helper: a successful String-mode step pushes at most two tokens. -/
theorem string_toks_length_le (t : TokBuf) (ci : CharacterItem)
    (sm2 : TokenizerStateMachine) (toks : List TokenItem)
    (h : stringProcessChar t ci = .ok (sm2, toks)) : toks.length ≤ 2 := by
  unfold stringProcessChar at h
  split_ifs at h <;> simp_all [stringTokenize]
  obtain ⟨h1, h2⟩ := h
  subst h2
  simp

/-- Helper: a Comment-mode step pushes at most two tokens. -/
theorem comment_toks_length_le (t : TokBuf) (ci : CharacterItem) :
    (commentProcessChar t ci).2.length ≤ 2 := by
  unfold commentProcessChar
  split_ifs <;> simp [commentTokenize]

/-- Helper: an Operator-mode step pushes at most two tokens. -/
theorem operator_toks_length_le (t : TokBuf) (ci : CharacterItem) :
    (operatorProcessChar t ci).2.length ≤ 2 := by
  unfold operatorProcessChar
  split
  · have hb := base_empty_toks_length_le ci.location ci
    simp [operatorTokenize]
    omega
  · simp [operatorTokenize]

/-- Helper: a successful Number-mode step pushes at most two tokens. -/
theorem number_toks_length_le (pd : Bool) (t : TokBuf) (ci : CharacterItem)
    (sm2 : TokenizerStateMachine) (toks : List TokenItem)
    (h : numberProcessChar pd t ci = .ok (sm2, toks)) : toks.length ≤ 2 := by
  unfold numberProcessChar at h
  cases hn : numberTokenize t.char_buffer t.token_start ci.location <;>
  cases hb : baseTokenize ci.character.toString ci.location ci.location <;>
    split_ifs at h <;> simp_all <;>
      (obtain ⟨h1, h2⟩ := h; subst h2; simp)

/-- Claim C9 (confirmed): every machine state (in particular every reachable
one) completes any single processed character with at most two newly pushed
tokens, so the iteration layer's single-slot buffer (one returned token plus
one buffered token) never silently discards a completed token. -/
theorem c9_step_token_bound (sm : TokenizerStateMachine) (ci : CharacterItem)
    (sm2 : TokenizerStateMachine) (toks : List TokenItem)
    (h : processChar sm ci = .ok (sm2, toks)) : toks.length ≤ 2 := by
  cases sm with
  | Base t =>
    have hb := base_toks_length_le t ci
    simp only [processChar, Except.ok.injEq] at h
    rw [h] at hb
    simpa using hb
  | StringMode t =>
    simp only [processChar] at h
    exact string_toks_length_le t ci sm2 toks h
  | Comment t =>
    have hb := comment_toks_length_le t ci
    simp only [processChar, Except.ok.injEq] at h
    rw [h] at hb
    simpa using hb
  | OperatorMode t =>
    have hb := operator_toks_length_le t ci
    simp only [processChar, Except.ok.injEq] at h
    rw [h] at hb
    simpa using hb
  | Number pd t =>
    simp only [processChar] at h
    exact number_toks_length_le pd t ci sm2 toks h
  | Invalid t =>
    simp [processChar] at h

/-- Witness for C9 at a concrete two-token step: Number mode hitting a comma
emits the Number token and the comma token in one step. -/
theorem c9_step_token_bound_witness :
    ([⟨Token.Number "42", ⟨0, 0⟩, ⟨0, 2⟩⟩,
      ⟨Token.Separator .Comma, ⟨0, 2⟩, ⟨0, 2⟩⟩] : List TokenItem).length ≤ 2 :=
  c9_step_token_bound (.Number false ⟨"42", ⟨0, 0⟩⟩) ⟨',', some ' ', ⟨0, 2⟩⟩
    (.Base ⟨"", ⟨0, 2⟩⟩) _ rfl

/-- Helper: from the poisoned `Invalid` state every remaining character pulls
an `InvalidNumber` error at its own location. -/
theorem pullsFrom_invalid (cs : List CharacterItem) :
    ∀ t, pullsFrom (.Invalid t) cs =
      cs.map (fun ci => .error (.InvalidNumber ci.location)) := by
  induction cs with
  | nil => intro t; rfl
  | cons ci rest ih => intro t; simp [pullsFrom, processChar, freshInvalid, ih]

/-- Helper: a mapped error list contains only errors. -/
theorem errorsOnly_map (cs : List CharacterItem) :
    errorsOnly (cs.map (fun ci => .error (.InvalidNumber ci.location))) := by
  intro x hx
  simp [List.mem_map] at hx
  obtain ⟨ci, hm, h2⟩ := hx
  exact ⟨_, h2.symm⟩

/-- Helper: prefixing anything onto an all-error tail keeps the
nothing-after-an-error property. -/
theorem noTokenAfterError_cons_of_errorsOnly (x : Except TokenizerError TokenItem)
    (l : List (Except TokenizerError TokenItem)) (h : errorsOnly l) :
    noTokenAfterError (x :: l) := by
  intro pre e suf heq
  cases pre with
  | nil =>
    simp only [List.nil_append, List.cons.injEq] at heq
    intro y hy
    exact h y (heq.2 ▸ hy)
  | cons p pre2 =>
    simp only [List.cons_append, List.cons.injEq] at heq
    intro y hy
    have hmem : y ∈ pre2 ++ .error e :: suf := by
      simp [hy]
    exact h y (heq.2 ▸ hmem)

/-- Helper: prefixing a token result preserves the nothing-after-an-error
property. -/
theorem noTokenAfterError_cons_ok (t : TokenItem)
    (l : List (Except TokenizerError TokenItem)) (h : noTokenAfterError l) :
    noTokenAfterError (.ok t :: l) := by
  intro pre e suf heq
  cases pre with
  | nil => simp at heq
  | cons p pre2 =>
    simp only [List.cons_append, List.cons.injEq] at heq
    exact h pre2 e suf heq.2

/-- Helper: every pull sequence has the nothing-after-an-error property. -/
theorem pullsFrom_noTokenAfterError (cs : List CharacterItem) :
    ∀ sm, noTokenAfterError (pullsFrom sm cs) := by
  induction cs with
  | nil =>
    intro sm pre e suf h
    simp [pullsFrom] at h
  | cons ci rest ih =>
    intro sm
    simp only [pullsFrom]
    cases hp : processChar sm ci with
    | error e1 =>
      have he : errorsOnly (pullsFrom freshInvalid rest) := by
        rw [freshInvalid, pullsFrom_invalid]
        exact errorsOnly_map rest
      exact noTokenAfterError_cons_of_errorsOnly _ _ he
    | ok r =>
      obtain ⟨sm2, toks⟩ := r
      cases toks with
      | nil => exact ih sm2
      | cons t1 ts =>
        cases ts with
        | nil => exact noTokenAfterError_cons_ok t1 _ (ih sm2)
        | cons t2 ts2 =>
          exact noTokenAfterError_cons_ok t1 _
            (noTokenAfterError_cons_ok t2 _ (ih sm2))

/-- Claim C1 (amended): once the token iterator has yielded a LexError, it
never again yields a token — every later pull result is itself an error
(while input characters remain, the poisoned machine yields further
`InvalidNumber` errors; the sequence does not necessarily end right after the
first error, which is the part of the original claim that fails). -/
theorem c1_no_tokens_after_error_amended (input : String)
    (pre : List (Except TokenizerError TokenItem)) (e : TokenizerError)
    (suf : List (Except TokenizerError TokenItem))
    (h : tokenize input = pre ++ .error e :: suf) :
    ∀ x ∈ suf, ∃ e2, x = .error e2 :=
  pullsFrom_noTokenAfterError _ _ pre e suf h

/-- Witness for C1 (amended) at the counterexample input: the element right
after the first error is itself an error. -/
theorem c1_no_tokens_after_error_amended_witness :
    ∃ e2, (Except.error (TokenizerError.InvalidNumber ⟨1, 0⟩) :
        Except TokenizerError TokenItem) = .error e2 :=
  c1_no_tokens_after_error_amended "\"a\nb" [] (.UnterminatedString ⟨0, 0⟩)
    [.error (.InvalidNumber ⟨1, 0⟩), .error (.InvalidNumber ⟨1, 1⟩)]
    (by rfl) _ (by simp)

/-- Helper: the character list of a singleton string. -/
theorem charToString_data (c : Char) : c.toString.data = [c] := rfl

/-- Helper: `String.push` appends one character to the data list. -/
theorem push_data (s : String) (c : Char) : (s.push c).data = s.data ++ [c] := rfl

/-- Helper: base classification never produces a Number token. -/
theorem tokenFromString_ne_number (s : String) (n : String) :
    Token.fromString s ≠ .Number n := by
  unfold Token.fromString
  split_ifs <;> simp

/-- Helper: tokens emitted through base flushing are never Number tokens. -/
theorem baseTokenize_tokOk (s : String) (a b : CharacterLocation)
    (ti : TokenItem) (h : baseTokenize s a b = some ti) : tokOk ti := by
  unfold baseTokenize at h
  split_ifs at h
  intro s2 hs2
  obtain rfl : (⟨Token.fromString s, a, b⟩ : TokenItem) = ti := by simpa using h
  exact absurd hs2 (tokenFromString_ne_number s s2)

/-- Helper: a Number token emitted from an invariant-satisfying buffer has a
well-shaped payload. -/
theorem numberTokenize_tokOk (pd : Bool) (cb : String) (a b : CharacterLocation)
    (hinv : numberBufferInv pd cb) (ti : TokenItem)
    (h : numberTokenize cb a b = some ti) : tokOk ti := by
  unfold numberTokenize at h
  split_ifs at h
  obtain rfl : (⟨Token.Number cb, a, b⟩ : TokenItem) = ti := by simpa using h
  intro s2 hs2
  obtain rfl : cb = s2 := by simpa using hs2
  obtain ⟨h1, h2, h3⟩ := hinv
  refine ⟨h1, h2, ?_⟩
  rw [h3]
  split <;> omega

/-- Helper: a Base-mode step preserves the machine invariant and pushes only
acceptable tokens. -/
theorem base_step_inv (t : TokBuf) (ci : CharacterItem) :
    smInv (baseProcessChar t ci).1 ∧ ∀ ti ∈ (baseProcessChar t ci).2, tokOk ti := by
  unfold baseProcessChar
  split_ifs with h1 h2 h3 h4
  · refine ⟨trivial, ?_⟩
    intro ti hti
    simp only [Option.mem_toList, Option.mem_def] at hti
    exact baseTokenize_tokOk _ _ _ _ hti
  · refine ⟨trivial, ?_⟩
    intro ti hti
    simp only [Option.mem_toList, Option.mem_def] at hti
    exact baseTokenize_tokOk _ _ _ _ hti
  · refine ⟨trivial, ?_⟩
    intro ti hti
    simp only [Option.mem_toList, Option.mem_def] at hti
    exact baseTokenize_tokOk _ _ _ _ hti
  · refine ⟨?_, by simp⟩
    show numberBufferInv (ci.character == '.') ci.character.toString
    refine ⟨charToString_ne_empty _, ?_, ?_⟩
    · intro c hc
      rw [charToString_data] at hc
      simp at hc
      subst hc
      exact h4.1
    · rw [charToString_data]
      simp [List.count_cons]
  · split
    · exact ⟨trivial, by simp⟩
    · refine ⟨trivial, ?_⟩
      intro ti hti
      simp only [List.mem_append, Option.mem_toList, Option.mem_def] at hti
      rcases hti with h | h <;> exact baseTokenize_tokOk _ _ _ _ h
    · refine ⟨trivial, ?_⟩
      intro ti hti
      simp only [List.mem_append, Option.mem_toList, Option.mem_def] at hti
      rcases hti with h | h <;> exact baseTokenize_tokOk _ _ _ _ h

/-- Helper: pushing a character never yields the empty string. -/
theorem push_ne_empty (s : String) (c : Char) : s.push c ≠ "" := by
  intro h
  have hd : (s.push c).data = ("" : String).data := by rw [h]
  rw [push_data] at hd
  simp at hd

/-- Helper: every successful step preserves the machine invariant, and every
token it pushes is acceptable (Number payloads are well shaped). -/
theorem step_preserve (sm : TokenizerStateMachine) (ci : CharacterItem)
    (sm2 : TokenizerStateMachine) (toks : List TokenItem)
    (hinv : smInv sm) (h : processChar sm ci = .ok (sm2, toks)) :
    smInv sm2 ∧ ∀ ti ∈ toks, tokOk ti := by
  cases sm with
  | Base t =>
    simp only [processChar, Except.ok.injEq] at h
    obtain ⟨hb, ht⟩ := base_step_inv t ci
    rw [h] at hb ht
    exact ⟨hb, ht⟩
  | StringMode t =>
    simp only [processChar] at h
    unfold stringProcessChar at h
    split_ifs at h <;>
      simp only [Except.ok.injEq, Prod.mk.injEq] at h <;>
      obtain ⟨rfl, rfl⟩ := h
    · refine ⟨trivial, ?_⟩
      intro ti hti
      simp only [stringTokenize, Option.toList_some, List.mem_singleton] at hti
      subst hti
      intro s2 hs2
      simp at hs2
    · exact ⟨trivial, by simp⟩
  | Comment t =>
    simp only [processChar, Except.ok.injEq] at h
    unfold commentProcessChar at h
    split_ifs at h <;>
      simp only [Prod.mk.injEq] at h <;>
      obtain ⟨rfl, rfl⟩ := h
    · refine ⟨trivial, ?_⟩
      intro ti hti
      simp only [commentTokenize, Option.toList_some, List.mem_singleton] at hti
      subst hti
      intro s2 hs2
      simp at hs2
    · exact ⟨trivial, by simp⟩
  | OperatorMode t =>
    simp only [processChar, Except.ok.injEq] at h
    unfold operatorProcessChar at h
    split at h <;>
      simp only [Prod.mk.injEq] at h <;>
      obtain ⟨rfl, rfl⟩ := h
    · obtain ⟨hb, ht⟩ := base_step_inv ⟨"", ci.location⟩ ci
      refine ⟨hb, ?_⟩
      intro ti hti
      simp only [operatorTokenize, Option.toList_some, List.singleton_append,
        List.mem_cons] at hti
      rcases hti with rfl | hti
      · intro s2 hs2
        simp at hs2
      · exact ht ti hti
    · refine ⟨trivial, ?_⟩
      intro ti hti
      simp only [operatorTokenize, Option.toList_some, List.mem_singleton] at hti
      subst hti
      intro s2 hs2
      simp at hs2
  | Number pd t =>
    simp only [processChar] at h
    unfold numberProcessChar at h
    obtain ⟨hne, hchars, hcount⟩ := hinv
    split_ifs at h with hdotpd hdot hdig <;>
      simp only [Except.ok.injEq, Prod.mk.injEq] at h <;>
      obtain ⟨rfl, rfl⟩ := h
    · refine ⟨?_, by simp⟩
      have hpd : pd = false := by
        cases pd
        · rfl
        · exact absurd ⟨hdot, rfl⟩ hdotpd
      subst hpd
      refine ⟨push_ne_empty _ _, ?_, ?_⟩
      · intro c hc
        rw [push_data] at hc
        rcases List.mem_append.mp hc with hc | hc
        · exact hchars c hc
        · right
          rw [hdot] at hc
          simpa using hc
      · rw [push_data, List.count_append]
        simp only [hdot]
        simp [hcount]
    · refine ⟨?_, by simp⟩
      refine ⟨push_ne_empty _ _, ?_, ?_⟩
      · intro c hc
        rw [push_data] at hc
        rcases List.mem_append.mp hc with hc | hc
        · exact hchars c hc
        · left
          have hcc : c = ci.character := by simpa using hc
          rw [hcc]
          exact hdig
      · have hne2 : (ci.character == '.') = false := by
          simp only [beq_eq_false_iff_ne]
          exact hdot
        rw [push_data, List.count_append]
        simp [List.count_cons, hne2, hcount]
    · refine ⟨trivial, ?_⟩
      intro ti hti
      simp only [List.mem_append, Option.mem_toList, Option.mem_def] at hti
      rcases hti with hti | hti
      · exact numberTokenize_tokOk pd t.char_buffer _ _ ⟨hne, hchars, hcount⟩ ti hti
      · exact baseTokenize_tokOk _ _ _ _ hti
  | Invalid t =>
    simp [processChar] at h

/-- Helper: every token in the pull sequence of an invariant-satisfying
machine is acceptable. -/
theorem pullsFrom_tokOk (cs : List CharacterItem) :
    ∀ sm, smInv sm → ∀ x ∈ pullsFrom sm cs, ∀ ti, x = .ok ti → tokOk ti := by
  induction cs with
  | nil =>
    intro sm _ x hx
    simp [pullsFrom] at hx
  | cons ci rest ih =>
    intro sm hinv
    simp only [pullsFrom]
    cases hp : processChar sm ci with
    | error e1 =>
      intro x hx ti hti
      rcases List.mem_cons.mp hx with hh | hh
      · rw [hh] at hti
        simp at hti
      · rw [freshInvalid, pullsFrom_invalid] at hh
        simp only [List.mem_map] at hh
        obtain ⟨ci2, _, h2⟩ := hh
        rw [← h2] at hti
        simp at hti
    | ok r =>
      obtain ⟨sm2, toks⟩ := r
      obtain ⟨hinv2, htoks⟩ := step_preserve sm ci sm2 toks hinv hp
      cases toks with
      | nil => exact ih sm2 hinv2
      | cons t1 ts =>
        cases ts with
        | nil =>
          intro x hx ti hti
          rcases List.mem_cons.mp hx with hh | hh
          · rw [hh] at hti
            obtain rfl : t1 = ti := by simpa using hti
            exact htoks t1 (by simp)
          · exact ih sm2 hinv2 x hh ti hti
        | cons t2 ts2 =>
          intro x hx ti hti
          rcases List.mem_cons.mp hx with hh | hh
          · rw [hh] at hti
            obtain rfl : t1 = ti := by simpa using hti
            exact htoks t1 (by simp)
          · rcases List.mem_cons.mp hh with hh2 | hh2
            · rw [hh2] at hti
              obtain rfl : t2 = ti := by simpa using hti
              exact htoks t2 (by simp)
            · exact ih sm2 hinv2 x hh2 ti hti

/-- Claim C7 (amended): every Number-category token yielded by `tokenize`
carries a non-empty payload consisting only of digits and at most one dot;
it contains at least one digit unless it is exactly the one-character
payload "." (which the code does emit, e.g. for the input `.` — the part of
the original claim that fails). -/
theorem c7_number_payload_amended (input : String)
    (x : Except TokenizerError TokenItem) (hx : x ∈ tokenize input)
    (ti : TokenItem) (hti : x = .ok ti) (s : String)
    (hs : ti.token = .Number s) :
    s ≠ "" ∧ (∀ c ∈ s.data, c.isDigit = true ∨ c = '.') ∧
      s.data.count '.' ≤ 1 ∧
      ((∃ c ∈ s.data, c.isDigit = true) ∨ s = ".") := by
  have hO := pullsFrom_tokOk (charItems input.data) initialState trivial x hx ti hti s hs
  obtain ⟨h1, h2, h3⟩ := hO
  refine ⟨h1, h2, h3, ?_⟩
  by_cases hd : ∃ c ∈ s.data, c.isDigit = true
  · exact Or.inl hd
  · right
    push_neg at hd
    have hall : ∀ c ∈ s.data, c = '.' := by
      intro c hc
      rcases h2 c hc with hh | hh
      · exact absurd hh (by simpa using hd c hc)
      · exact hh
    have hne : s.data ≠ [] := by
      intro hh
      apply h1
      cases s with
      | mk data => simp at hh; rw [hh]
    have hcount : s.data.count '.' = s.data.length := by
      rw [List.count_eq_length]
      intro c hc
      have := hall c hc
      simp [this]
    have hlen : s.data.length = 1 := by
      have hpos := List.length_pos.mpr hne
      omega
    obtain ⟨a, ha⟩ := List.length_eq_one.mp hlen
    have ha2 : a = '.' := hall a (by rw [ha]; simp)
    have hdata : s.data = ['.'] := by rw [ha, ha2]
    cases s with
    | mk data =>
      simp only at hdata
      rw [hdata]

/-- Witness for C7 (amended) at the Number token of input `1.5`. -/
theorem c7_number_payload_amended_witness :
    "1.5" ≠ "" ∧ (∀ c ∈ ("1.5" : String).data, c.isDigit = true ∨ c = '.') ∧
      ("1.5" : String).data.count '.' ≤ 1 ∧
      ((∃ c ∈ ("1.5" : String).data, c.isDigit = true) ∨ "1.5" = ".") :=
  c7_number_payload_amended "1.5" (.ok ⟨.Number "1.5", ⟨0, 0⟩, ⟨0, 3⟩⟩)
    (by
      have hrun : tokenize "1.5" = [.ok ⟨.Number "1.5", ⟨0, 0⟩, ⟨0, 3⟩⟩] := rfl
      rw [hrun]
      simp)
    ⟨.Number "1.5", ⟨0, 0⟩, ⟨0, 3⟩⟩ rfl "1.5" rfl
